import Mathlib

/-!
Shallow embedding of `modules/sd_schedulers.py` (schedule registry and sigma
schedule generators) and verification of its specification claims.

Conventions of the embedding:
* Python floats are modelled by real numbers `ℝ`; "within floating tolerance"
  therefore becomes exact equality over `ℝ`.
* `torch.linspace` / `np.linspace` (with endpoint) is `linspace`,
  `np.linspace(..., endpoint=False)` is inlined where used.
* `np.interp` is `interpPts` / `npInterp` (one-dimensional piecewise-linear
  interpolation with clamping at both ends, over an increasing x-grid).
* `append_zero` (from k_diffusion, a one-line helper that appends a single
  `0.0` entry) is `++ [0]`.
* the configuration store `shared.opts` is the explicit record `Opts`; the
  host-model flag `shared.sd_model.is_sdxl` is an explicit `Bool` argument;
  `inner_model.sigmas` is an explicit `List ℝ` argument; the external
  `scipy.stats.beta.ppf` quantile function is an explicit function argument.
* Python `float(...)` string parsing is modelled for plain decimal literals
  (optional sign, digits, optional fractional part); any other shape fails,
  exactly as the malformed inputs of the spec do.
* descriptor `function` references are modelled by the referenced name.
-/

namespace SdSched

/-- Descriptor for one schedule; mirrors the `@dataclasses.dataclass Scheduler`
of the source (`name`, `label`, `function`, `default_rho`, `need_inner_model`,
`aliases`).  The `function` reference is modelled by the referenced function's
name (`none` for the sentinel `automatic` entry); `aliases = None` is modelled
by the empty list. -/
structure Scheduler where
  name : String
  label : String
  function : Option String
  default_rho : ℚ := -1
  need_inner_model : Bool := false
  aliases : List String := []
deriving DecidableEq, Repr

/-- The static registry list, entry for entry as in the source. -/
def schedulers : List Scheduler := [
  ⟨"automatic", "Automatic", none, -1, false, []⟩,
  ⟨"karras", "Karras", some "sampling.get_sigmas_karras", 7, false, []⟩,
  ⟨"exponential", "Exponential", some "sampling.get_sigmas_exponential", -1, false, []⟩,
  ⟨"polyexponential", "Polyexponential", some "sampling.get_sigmas_polyexponential", 1, false, []⟩,
  ⟨"sinusoidal_sf", "Sinusoidal SF", some "get_sigmas_sinusoidal_sf", -1, false, []⟩,
  ⟨"invcosinusoidal_sf", "Invcosinusoidal SF", some "get_sigmas_invcosinusoidal_sf", -1, false, []⟩,
  ⟨"react_cosinusoidal_dynsf", "React Cosinusoidal DynSF", some "get_sigmas_react_cosinusoidal_dynsf", -1, false, []⟩,
  ⟨"uniform", "Uniform", some "uniform", -1, true, []⟩,
  ⟨"sgm_uniform", "SGM Uniform", some "sgm_uniform", -1, true, ["SGMUniform"]⟩,
  ⟨"kl_optimal", "KL Optimal", some "kl_optimal", -1, false, []⟩,
  ⟨"simple", "Simple", some "simple_scheduler", -1, true, []⟩,
  ⟨"normal", "Normal", some "normal_scheduler", -1, true, []⟩,
  ⟨"ddim", "DDIM", some "ddim_scheduler", -1, true, []⟩,
  ⟨"align_your_steps", "Align Your Steps", some "get_align_your_steps_sigmas", -1, false, []⟩,
  ⟨"align_your_steps_custom", "Align Your Steps Custom", some "get_sigmas_ays_custom", -1, false, []⟩,
  ⟨"beta", "Beta", some "beta_scheduler", -1, true, []⟩,
  ⟨"turbo", "Turbo", some "turbo_scheduler", -1, true, []⟩,
  ⟨"cosine", "Cosine", some "cosine_scheduler", -1, false, []⟩,
  ⟨"cosine-exponential blend", "Cosine-exponential Blend", some "cosexpblend_scheduler", -1, false, []⟩,
  ⟨"phi", "Phi", some "phi_scheduler", -1, false, []⟩,
  ⟨"laplace", "Laplace", some "get_sigmas_laplace", -1, false, []⟩,
  ⟨"karras dynamic", "Karras Dynamic", some "get_sigmas_karras_dynamic", -1, false, []⟩,
  ⟨"align_your_steps_GITS", "Align Your Steps GITS", some "get_align_your_steps_sigmas_GITS", -1, false, []⟩,
  ⟨"align_your_steps_11", "Align Your Steps 11", some "ays_11_sigmas", -1, false, []⟩,
  ⟨"align_your_steps_32", "Align Your Steps 32", some "ays_32_sigmas", -1, false, []⟩]

/-- Lookup in the merged dictionary
`{**{x.name: x for x in l}, **{x.label: x for x in l}}`: a Python dict
comprehension / merge lets a later binding silently overwrite an earlier one
with the same key, so lookup returns the value of the LAST pair whose key
matches. -/
def build_schedulers_map (l : List Scheduler) (k : String) : Option Scheduler :=
  ((l.map (fun x => (x.name, x)) ++ l.map (fun x => (x.label, x))).reverse).lookup k

/-- The registry dictionary `schedulers_map` of the source (ids and labels). -/
def schedulers_map (k : String) : Option Scheduler :=
  build_schedulers_map schedulers k

/-- Modelled from the spec: `resolve(key) -> descriptor | not_found` checks the
combined id/label/alias key space.  The id/label part is exactly the in-source
`schedulers_map`; the alias-consuming resolution step is repository code that
is not under `src/` (only the `aliases` field declaration on each descriptor
is), so the alias fallback is modelled from the spec's words here. -/
def resolve (k : String) : Option Scheduler :=
  match schedulers_map k with
  | some d => some d
  | none => schedulers.find? (fun d => d.aliases.contains k)

/-- The combined id/label key space of the registry. -/
def registryKeys : List String :=
  schedulers.map (fun x => x.name) ++ schedulers.map (fun x => x.label)

/-- Configuration store (the fields of `shared.opts` that this module reads).
Record defaults are only a convenience for building concrete instances; every
generator reads its fields at call time, as the source does. -/
structure Opts where
  karras_rho : ℝ := 7
  exponential_shrink_factor : ℝ := 0
  polyexponential_rho : ℝ := 1
  sinusoidal_sf_factor : ℝ := 1
  invcosinusoidal_sf_factor : ℝ := 1
  react_cosinusoidal_dynsf_factor : ℝ := 1
  ays_custom_sigmas : String := ""
  beta_dist_alpha : ℝ := 0.6
  beta_dist_beta : ℝ := 0.6
  cosine_sf_factor : ℝ := 1
  cosexpblend_exp_decay : ℝ := 1
  phi_power : ℝ := 1
  laplace_mu : ℝ := 0
  laplace_beta : ℝ := 0.5
  karras_dynamic_rho : ℝ := 7

/-- Model of `torch.linspace a b n` / `np.linspace(a, b, n)` (endpoint
included): `n` evenly spaced values from `a` to `b`. -/
noncomputable def linspace (a b : ℝ) : ℕ → List ℝ
  | 0 => []
  | 1 => [a]
  | n + 2 => (List.range (n + 2)).map (fun i : ℕ => a + (b - a) * (i : ℝ) / ((n : ℝ) + 1))

/-- Core of `np.interp`: piecewise-linear interpolation through the point list
`pts` (whose x-coordinates are increasing), clamped to the first y-value on
the left and the last y-value on the right. -/
noncomputable def interpPts : ℝ → List (ℝ × ℝ) → ℝ
  | _, [] => 0
  | _, [p] => p.2
  | x, p :: q :: ps =>
    if x ≤ p.1 then p.2
    else if x ≤ q.1 then p.2 + (x - p.1) * (q.2 - p.2) / (q.1 - p.1)
    else interpPts x (q :: ps)

/-- Model of `np.interp(qs, xs, ys)`. -/
noncomputable def npInterp (qs xs ys : List ℝ) : List ℝ :=
  qs.map (fun q => interpPts q (xs.zip ys))

/-- The shared `loglinear_interp(t_steps, num_steps)` helper of the
align-your-steps family: log of the reversed table, linear interpolation in
log space over `num_steps` evenly spaced positions, exponentiate, reverse
back to descending order. -/
noncomputable def loglinear_interp (t_steps : List ℝ) (num_steps : ℕ) : List ℝ :=
  let xs := linspace 0 1 t_steps.length
  let ys := t_steps.reverse.map Real.log
  let new_xs := linspace 0 1 num_steps
  ((npInterp new_xs xs ys).map Real.exp).reverse

/-- Fixed empirical align-your-steps table for SDXL checkpoints. -/
noncomputable def ays_table_sdxl : List ℝ :=
  [14.615, 6.315, 3.771, 2.181, 1.342, 0.862, 0.555, 0.380, 0.234, 0.113, 0.029]

/-- Fixed empirical align-your-steps table for SD 1.5 checkpoints. -/
noncomputable def ays_table_sd15 : List ℝ :=
  [14.615, 6.475, 3.861, 2.697, 1.886, 1.396, 0.963, 0.652, 0.399, 0.152, 0.029]

/-- Fixed empirical GITS table for SDXL checkpoints. -/
noncomputable def gits_table_sdxl : List ℝ :=
  [14.615, 4.734, 2.567, 1.529, 0.987, 0.652, 0.418, 0.268, 0.179, 0.127, 0.029]

/-- Fixed empirical GITS table for SD 1.5 checkpoints. -/
noncomputable def gits_table_sd15 : List ℝ :=
  [14.615, 4.617, 2.507, 1.236, 0.702, 0.402, 0.240, 0.156, 0.104, 0.094, 0.029]

/-- Fixed empirical 32-entry align-your-steps table for SDXL checkpoints. -/
noncomputable def ays32_table_sdxl : List ℝ :=
  [14.615, 11.1491618, 8.50522127, 6.48827151, 5.43707402, 4.60398619,
   3.89854704, 3.27407457, 2.74396527, 2.29968659, 1.95448514, 1.67108715,
   1.42878152, 1.23181009, 1.06789649, 0.92579443, 0.80290886, 0.69660121,
   0.60436903, 0.52852552, 0.46773344, 0.41393379, 0.36258186, 0.31008517,
   0.26518925, 0.22326461, 0.17653877, 0.13959192, 0.10587381, 0.05519369,
   0.02877334, 0.015]

/-- Fixed empirical 32-entry align-your-steps table for SD 1.5 checkpoints. -/
noncomputable def ays32_table_sd15 : List ℝ :=
  [14.615, 11.23951352, 8.64363081, 6.64729424, 5.57250862, 4.71648546,
   3.99196065, 3.5195609, 3.13490466, 2.79228788, 2.48773628, 2.21663865,
   1.97508351, 1.7793172, 1.61475335, 1.46540953, 1.314849, 1.16642497,
   1.03475547, 0.91573744, 0.80748169, 0.71202361, 0.621739, 0.53065202,
   0.4529096, 0.37491455, 0.27461819, 0.2011529, 0.14105873, 0.06682881,
   0.03166121, 0.015]

/-- Split a character list at every occurrence of `sep`
(Python `str.split(sep)`; the empty input yields one empty part). -/
def splitChar (sep : Char) (l : List Char) : List (List Char) :=
  l.foldr (fun c acc =>
    match acc with
    | [] => [[c]]
    | cur :: rest => if c = sep then [] :: cur :: rest else (c :: cur) :: rest) [[]]

/-- Python `str.strip('[]')`: remove every leading and trailing `'['` / `']'`. -/
def stripBrackets (l : List Char) : List Char :=
  (((l.dropWhile (fun c => c = '[' ∨ c = ']')).reverse.dropWhile
    (fun c => c = '[' ∨ c = ']')).reverse)

/-- Python `str.strip()`: remove leading and trailing whitespace. -/
def trimChars (l : List Char) : List Char :=
  ((l.dropWhile Char.isWhitespace).reverse.dropWhile Char.isWhitespace).reverse

/-- Numeric value of a digit string. -/
def digitsVal (l : List Char) : ℕ :=
  l.foldl (fun a c => 10 * a + (c.toNat - 48)) 0

/-- Parse an unsigned decimal literal (`"12"`, `"1.5"`, `"1."`, `".5"`);
anything else — in particular a non-numeric word such as `"abc"` — fails.
This models the accepting/rejecting behaviour of Python `float(...)` on the
plain decimal strings this feature works with. -/
def parseUnsigned (l : List Char) : Option ℚ :=
  match splitChar '.' l with
  | [a] => if a ≠ [] ∧ a.all Char.isDigit then some (digitsVal a) else none
  | [a, b] =>
      if (a ++ b) ≠ [] ∧ (a ++ b).all Char.isDigit then
        some ((digitsVal a : ℚ) + (digitsVal b : ℚ) / (10 : ℚ) ^ b.length)
      else none
  | _ => none

/-- Parse a signed decimal literal; models Python `float(x)` for this module. -/
def parseFloat (l : List Char) : Option ℚ :=
  match l with
  | '-' :: rest => (parseUnsigned rest).map (fun q => -q)
  | '+' :: rest => parseUnsigned rest
  | _ => parseUnsigned l

/-- Parse each comma-separated part, failing if any part fails
(the first raised exception aborts the whole list comprehension). -/
def parseAll : List (List Char) → Option (List ℚ)
  | [] => some []
  | p :: rest =>
    match parseFloat (trimChars p), parseAll rest with
    | some v, some vs => some (v :: vs)
    | _, _ => none

/-- Model of `sigmas_str.strip('[]').split(',')` followed by
`[float(x.strip()) for x in sigmas_values]`, as an `Option`: `none` means the
parse raised an exception. -/
def parseSigmaList (s : String) : Option (List ℚ) :=
  parseAll (splitChar ',' (stripBrackets s.toList))

/-- Model of `get_sigmas_exponential` (the in-source wrapper with the
configurable shrink factor): log-linear ramp from `sigma_max` to `sigma_min`,
multiplied elementwise by `exp(shrink * linspace(0, 1, n))`, then a `0.0`
terminator is appended by `append_zero`. -/
noncomputable def get_sigmas_exponential (o : Opts) (n : ℕ) (smin smax : ℝ) : List ℝ :=
  List.zipWith (fun a b => a * b)
    ((linspace (Real.log smax) (Real.log smin) n).map Real.exp)
    ((linspace 0 1 n).map (fun x => Real.exp (o.exponential_shrink_factor * x)))
  ++ [0]

/-- Model of `get_sigmas_sinusoidal_sf`.  NOTE (faithful to the source): no
`0.0` terminator is appended; the returned list has exactly `n` entries. -/
noncomputable def get_sigmas_sinusoidal_sf (o : Opts) (n : ℕ) (smin smax : ℝ) : List ℝ :=
  (linspace 0 1 n).map (fun x =>
    ((smin + (smax - smin) * (1 - Real.sin (Real.pi / 2 * x))) / smax)
      ^ o.sinusoidal_sf_factor * smax)

/-- Model of `kl_optimal`: `tan(i/n * atan(sigma_min) + (1 - i/n) * atan(sigma_max))`
for `i` in `0..n` inclusive.  NOTE (faithful to the source): no separate `0.0`
terminator; the final entry is `tan(atan(sigma_min)) = sigma_min`. -/
noncomputable def kl_optimal (n : ℕ) (smin smax : ℝ) : List ℝ :=
  (List.range (n + 1)).map (fun i : ℕ =>
    Real.tan ((i : ℝ) / (n : ℝ) * Real.arctan smin
      + (1 - (i : ℝ) / (n : ℝ)) * Real.arctan smax))

/-- Model of `get_align_your_steps_sigmas`: the fixed empirical table (chosen
by the SDXL flag), log-linear-resampled to `n` points when `n` differs from the
table length, with a `0.0` terminator. -/
noncomputable def get_align_your_steps_sigmas (isxl : Bool) (n : ℕ) (smin smax : ℝ) : List ℝ :=
  let sigmas : List ℝ := if isxl then ays_table_sdxl else ays_table_sd15
  if n ≠ sigmas.length then loglinear_interp sigmas n ++ [0] else sigmas ++ [0]

/-- Model of `get_sigmas_ays_custom`: parse the configured custom sigma string;
on success resample it with PLAIN linear `np.interp` (not the log-linear
helper) when `n` differs from its length and append `0.0`; on a parse failure
fall back to the default `get_align_your_steps_sigmas` (the `try/except`). -/
noncomputable def get_sigmas_ays_custom (o : Opts) (isxl : Bool) (n : ℕ) (smin smax : ℝ) : List ℝ :=
  match parseSigmaList o.ays_custom_sigmas with
  | some qs =>
      let sigmas : List ℝ := qs.map (fun q : ℚ => (q : ℝ))
      (if n ≠ sigmas.length then
        npInterp (linspace 0 1 n) (linspace 0 1 sigmas.length) sigmas
      else sigmas) ++ [0]
  | none => get_align_your_steps_sigmas isxl n smin smax

/-- Model of `get_align_your_steps_sigmas_GITS` (same skeleton as the default
variant, with its own inlined copy of `loglinear_interp` and its own tables). -/
noncomputable def get_align_your_steps_sigmas_GITS (isxl : Bool) (n : ℕ) (smin smax : ℝ) : List ℝ :=
  let sigmas : List ℝ := if isxl then gits_table_sdxl else gits_table_sd15
  if n ≠ sigmas.length then loglinear_interp sigmas n ++ [0] else sigmas ++ [0]

/-- Model of `ays_11_sigmas` (same skeleton; the source repeats the same
11-entry table literals as `get_align_your_steps_sigmas`). -/
noncomputable def ays_11_sigmas (isxl : Bool) (n : ℕ) (smin smax : ℝ) : List ℝ :=
  let sigmas : List ℝ := if isxl then ays_table_sdxl else ays_table_sd15
  if n ≠ sigmas.length then loglinear_interp sigmas n ++ [0] else sigmas ++ [0]

/-- Model of `ays_32_sigmas` (same skeleton with the 32-entry tables). -/
noncomputable def ays_32_sigmas (isxl : Bool) (n : ℕ) (smin smax : ℝ) : List ℝ :=
  let sigmas : List ℝ := if isxl then ays32_table_sdxl else ays32_table_sd15
  if n ≠ sigmas.length then loglinear_interp sigmas n ++ [0] else sigmas ++ [0]

/-- Model of `cosine_scheduler` (the `n = 1` branch yields the single value
`sigma_max ** 0.5`; the terminator `0.0` is concatenated in all cases). -/
noncomputable def cosine_scheduler (o : Opts) (n : ℕ) (smin smax : ℝ) : List ℝ :=
  (if n = 1 then [smax ^ (0.5 : ℝ)]
   else (List.range n).map (fun x : ℕ =>
     (smin + 0.5 * (smax - smin)
       * (1 - Real.cos (Real.pi * (1 - ((x : ℝ) / ((n : ℝ) - 1)) ^ (0.5 : ℝ)))))
     * o.cosine_sf_factor)) ++ [0]

/-- Model of `cosexpblend_scheduler`; in the general branch the running
exponential value `E` starts at `sigma_max` and is multiplied by
`K = decay ** (1/(n-1))` after each step, so at index `x` it is
`sigma_max * K ^ x`. -/
noncomputable def cosexpblend_scheduler (o : Opts) (n : ℕ) (smin smax : ℝ) : List ℝ :=
  (if n = 1 then [smax ^ (0.5 : ℝ)]
   else (List.range n).map (fun x : ℕ =>
     let p := (x : ℝ) / ((n : ℝ) - 1)
     let C := smin + 0.5 * (smax - smin) * (1 - Real.cos (Real.pi * (1 - p ^ (0.5 : ℝ))))
     C + p * (smax * (o.cosexpblend_exp_decay ^ ((1 : ℝ) / ((n : ℝ) - 1))) ^ x - C)))
  ++ [0]

/-- Model of `phi_scheduler`. -/
noncomputable def phi_scheduler (o : Opts) (n : ℕ) (smin smax : ℝ) : List ℝ :=
  (if n = 1 then [smax ^ (0.5 : ℝ)]
   else (List.range n).map (fun x : ℕ =>
     smin + (smax - smin)
       * (1 - (x : ℝ) / ((n : ℝ) - 1)) ^ (((1 + (5 : ℝ) ^ (0.5 : ℝ)) / 2) ^ o.phi_power)))
  ++ [0]

/-- Model of `get_sigmas_laplace`: Laplace-distribution quantiles of
`linspace 0 1 n`, exponentiated and clamped into `[sigma_min, sigma_max]`
(`torch.clamp(x, min=smin, max=smax) = min smax (max smin x)`), with a `0.0`
terminator. -/
noncomputable def get_sigmas_laplace (o : Opts) (n : ℕ) (smin smax : ℝ) : List ℝ :=
  ((linspace 0 1 n).map (fun x =>
    min smax (max smin (Real.exp (o.laplace_mu
      - o.laplace_beta * Real.sign (0.5 - x)
        * Real.log (1 - 2 * |0.5 - x| + 1e-5)))))) ++ [0]

/-- Model of `np.rint`: round to the nearest integer, ties to the even one. -/
noncomputable def rint (x : ℝ) : ℤ :=
  if Int.fract x = 1 / 2 then (if Even ⌊x⌋ then ⌊x⌋ else ⌊x⌋ + 1) else round x

/-- Python list indexing `sig[int(t)]` for an integer-valued `t` (a negative
index counts from the end); an out-of-range index is given the junk value `0`
(the source would raise there, which no claim exercises). -/
noncomputable def pyIndex (sig : List ℝ) (t : ℤ) : ℝ :=
  if 0 ≤ t then sig.getD t.toNat 0 else sig.getD ((sig.length : ℤ) + t).toNat 0

/-- Consecutive deduplication with running `last_t` (initially `-1`):
keeps an index only when it differs from the immediately preceding one. -/
def dedupIdx : ℤ → List ℤ → List ℤ
  | _, [] => []
  | last, t :: rest => if t = last then dedupIdx t rest else t :: dedupIdx t rest

/-- Model of `beta_scheduler`: `ts = 1 - np.linspace(0, 1, n, endpoint=False)`
(that is `1 - i/n` for `i < n`), mapped through the deterministic
Beta-distribution quantile function `ppf` (an explicit function argument,
standing for `scipy.stats.beta.ppf`), scaled by `len(sigmas) - 1`, rounded
with `np.rint`, consecutively deduplicated, looked up in the host model's
sigma table, with a `0.0` terminator. -/
noncomputable def beta_scheduler (ppf : ℝ → ℝ → ℝ → ℝ) (o : Opts) (n : ℕ)
    (smin smax : ℝ) (innerSigmas : List ℝ) : List ℝ :=
  let total : ℝ := (innerSigmas.length : ℝ) - 1
  let ts := (List.range n).map (fun i : ℕ => 1 - (i : ℝ) / (n : ℝ))
  let rs := ts.map (fun t => rint (ppf t o.beta_dist_alpha o.beta_dist_beta * total))
  (dedupIdx (-1) rs).map (pyIndex innerSigmas) ++ [0]

/-- Model of `get_sigmas_invcosinusoidal_sf`.  NOTE (faithful to the source):
no `0.0` terminator is appended; the returned list has exactly `n` entries. -/
noncomputable def get_sigmas_invcosinusoidal_sf (o : Opts) (n : ℕ) (smin smax : ℝ) : List ℝ :=
  (linspace 0 1 n).map (fun x =>
    ((smin + (smax - smin) * (0.5 * (Real.cos (x * Real.pi) + 1))) / smax)
      ^ o.invcosinusoidal_sf_factor * smax)

/-- Model of `get_sigmas_react_cosinusoidal_dynsf` (the exponent itself varies
with the position `x`).  NOTE (faithful to the source): no `0.0` terminator is
appended; the returned list has exactly `n` entries. -/
noncomputable def get_sigmas_react_cosinusoidal_dynsf (o : Opts) (n : ℕ) (smin smax : ℝ) : List ℝ :=
  (linspace 0 1 n).map (fun x =>
    ((smin + (smax - smin) * Real.cos (x * (Real.pi / 2))) / smax)
      ^ (o.react_cosinusoidal_dynsf_factor * ((n : ℝ) * x / (n : ℝ))) * smax)

/-- Model of `get_sigmas_karras_dynamic`: the Karras ramp raised to a
cosine-modulated exponent `cos(i·tau/n)·2 + rho` (with `tau = 2π`), then the
`0.0` terminator; the loop reads both the index `i` and `ramp[i]`, modelled by
zipping the index range with the ramp. -/
noncomputable def get_sigmas_karras_dynamic (o : Opts) (n : ℕ) (smin smax : ℝ) : List ℝ :=
  (List.zipWith
    (fun (i : ℕ) (r : ℝ) =>
      (smax ^ ((1 : ℝ) / o.karras_dynamic_rho)
        + r * (smin ^ ((1 : ℝ) / o.karras_dynamic_rho) - smax ^ ((1 : ℝ) / o.karras_dynamic_rho)))
        ^ (Real.cos ((i : ℝ) * (2 * Real.pi) / (n : ℝ)) * 2 + o.karras_dynamic_rho))
    (List.range n) (linspace 0 1 n)) ++ [0]

/-- Modelled from the spec: the karras generator.  The registered function is
`sampling.get_sigmas_karras` from the k-diffusion package, which is not under
`src/`; the in-source wrapper (line 54) only injects `rho` from the
configuration store.  Formula from the spec's table:
`(max^(1/ρ) + t·(min^(1/ρ) − max^(1/ρ)))^ρ` over a ramp `t ∈ [0,1]` of length
`n`, with the `0.0` terminator appended by `append_zero`. -/
noncomputable def get_sigmas_karras (o : Opts) (n : ℕ) (smin smax : ℝ) : List ℝ :=
  ((linspace 0 1 n).map (fun t =>
    (smax ^ ((1 : ℝ) / o.karras_rho)
      + t * (smin ^ ((1 : ℝ) / o.karras_rho) - smax ^ ((1 : ℝ) / o.karras_rho)))
      ^ o.karras_rho)) ++ [0]

/-- Modelled from the spec: the polyexponential generator — "power-law-warped
log-linear interpolation" between `sigma_max` and `sigma_min` with exponent
`rho`.  The registered function is `sampling.get_sigmas_polyexponential` from
the k-diffusion package, not under `src/`.  The descending ramp
`linspace 1 0 n` is warped by `^ ρ` and applied in log space, with the `0.0`
terminator appended by `append_zero`. -/
noncomputable def get_sigmas_polyexponential (o : Opts) (n : ℕ) (smin smax : ℝ) : List ℝ :=
  ((linspace 1 0 n).map (fun t =>
    Real.exp (t ^ o.polyexponential_rho * (Real.log smax - Real.log smin) + Real.log smin)))
  ++ [0]

/-- Model of `uniform`: delegates entirely to the host model's own
`get_sigmas(n)` (an explicit function argument); no terminator is appended
here since the host table already ends in 0. -/
noncomputable def uniform (get_sigmas : ℕ → List ℝ) (n : ℕ) (smin smax : ℝ) : List ℝ :=
  get_sigmas n

/-- Model of `sgm_uniform`: convert the sigma bounds to timesteps via the host
model, `linspace` over `n + 1` timesteps dropping the last, convert each back
to a sigma, append `0.0`. -/
noncomputable def sgm_uniform (sigma_to_t t_to_sigma : ℝ → ℝ) (n : ℕ) (smin smax : ℝ) : List ℝ :=
  ((linspace (sigma_to_t smax) (sigma_to_t smin) (n + 1)).dropLast.map t_to_sigma) ++ [0]

/-- Model of `simple_scheduler`: stride through the host's native sigma table
from the end, `sigmas[-(1 + int(x * ss))]` with `ss = len(sigmas) / n` (float
division, `int` truncation — `Int.floor` on these non-negative values),
append `0.0`. -/
noncomputable def simple_scheduler (n : ℕ) (smin smax : ℝ) (sig : List ℝ) : List ℝ :=
  ((List.range n).map (fun x : ℕ =>
    pyIndex sig (-(1 + Int.floor ((x : ℝ) * ((sig.length : ℝ) / (n : ℝ))))))) ++ [0]

/-- Model of `normal_scheduler`: `linspace` of `n` timesteps between the
converted bounds (or `n + 1` dropping the last in `sgm` mode), each converted
back to a sigma, append `0.0` (the source's `floor` flag is declared but never
read). -/
noncomputable def normal_scheduler (sigma_to_t t_to_sigma : ℝ → ℝ) (sgm : Bool)
    (n : ℕ) (smin smax : ℝ) : List ℝ :=
  let start := sigma_to_t smax
  let en := sigma_to_t smin
  let timesteps := if sgm then (linspace start en (n + 1)).dropLast else linspace start en n
  (timesteps.map t_to_sigma) ++ [0]

/-- Model of `ddim_scheduler`: walk the host table forward from index 1 with
integer stride `ss = max(len // n, 1)` while the index is in range (the `j`-th
visited index is `1 + j·ss`, and the walk makes `⌈(len − 1)/ss⌉` steps),
reverse, append `0.0`. -/
noncomputable def ddim_scheduler (n : ℕ) (smin smax : ℝ) (sig : List ℝ) : List ℝ :=
  (((List.range ((sig.length - 1 + (max (sig.length / n) 1) - 1) / max (sig.length / n) 1)).map
    (fun j : ℕ => sig.getD (1 + j * max (sig.length / n) 1) 0)).reverse) ++ [0]

/-- Model of `turbo_scheduler`: `n` evenly spaced timesteps
`(i+1)·(1000/n) − 1` for `i < n`, rounded (ties to even) and clipped to
`[0, 999]`, in descending order (`torch.flip`), mapped through the host
model's timestep-to-sigma function, with a `0.0` terminator. -/
noncomputable def turbo_scheduler (ts_to_sigma : ℤ → ℝ) (n : ℕ) (smin smax : ℝ) : List ℝ :=
  (((List.range n).map (fun i : ℕ =>
    ts_to_sigma (max 0 (min 999 (rint (((i : ℝ) + 1) * (1000 / (n : ℝ)) - 1)))))).reverse) ++ [0]

/-- A list is monotonically non-increasing. -/
def NonIncr (l : List ℝ) : Prop := List.Chain' (fun a b => b ≤ a) l

/-- Shape facts of every registered Pattern-A generator, as established by
the code (the amended form of claim C1): `karras` (spec-modelled),
`exponential`, `polyexponential` (spec-modelled), `laplace`, all five
align-your-steps variants (default, custom, GITS, 11, 32), `cosine`,
`cosine-exponential blend`, `phi` and `karras dynamic` return `n + 1` values
ending in `0.0`; `kl_optimal` returns `n + 1` values ending in `sigma_min`
(no zero terminator); the three sinusoidal-family generators
(`sinusoidal_sf`, `invcosinusoidal_sf`, `react_cosinusoidal_dynsf`) return
only `n` values with no terminator; the first value equals `sigma_max` for
`exponential`, `polyexponential`, `kl_optimal`, the three sinusoidal
generators and (when `rho ≠ 0`) `karras`, while for `laplace` it is the
clamp of a Laplace quantile into `[sigma_min, sigma_max]`. -/
def C1Facts (o : Opts) (isxl : Bool) (n : ℕ) (smin smax : ℝ) : Prop :=
  (get_sigmas_exponential o n smin smax).length = n + 1 ∧
  (get_sigmas_exponential o n smin smax).getLast? = some 0 ∧
  (get_sigmas_exponential o n smin smax).head? = some smax ∧
  (kl_optimal n smin smax).length = n + 1 ∧
  (kl_optimal n smin smax).head? = some smax ∧
  (kl_optimal n smin smax).getLast? = some smin ∧
  (get_sigmas_laplace o n smin smax).length = n + 1 ∧
  (get_sigmas_laplace o n smin smax).getLast? = some 0 ∧
  (∃ y, (get_sigmas_laplace o n smin smax).head? = some y ∧ smin ≤ y ∧ y ≤ smax) ∧
  (get_sigmas_sinusoidal_sf o n smin smax).length = n ∧
  (get_sigmas_sinusoidal_sf o n smin smax).head? = some smax ∧
  (get_align_your_steps_sigmas isxl n smin smax).length = n + 1 ∧
  (get_align_your_steps_sigmas isxl n smin smax).getLast? = some 0 ∧
  (get_sigmas_ays_custom o isxl n smin smax).length = n + 1 ∧
  (get_sigmas_ays_custom o isxl n smin smax).getLast? = some 0 ∧
  (cosine_scheduler o n smin smax).length = n + 1 ∧
  (cosine_scheduler o n smin smax).getLast? = some 0 ∧
  (cosexpblend_scheduler o n smin smax).length = n + 1 ∧
  (cosexpblend_scheduler o n smin smax).getLast? = some 0 ∧
  (phi_scheduler o n smin smax).length = n + 1 ∧
  (phi_scheduler o n smin smax).getLast? = some 0 ∧
  (get_sigmas_invcosinusoidal_sf o n smin smax).length = n ∧
  (get_sigmas_invcosinusoidal_sf o n smin smax).head? = some smax ∧
  (get_sigmas_react_cosinusoidal_dynsf o n smin smax).length = n ∧
  (get_sigmas_react_cosinusoidal_dynsf o n smin smax).head? = some smax ∧
  (get_sigmas_karras_dynamic o n smin smax).length = n + 1 ∧
  (get_sigmas_karras_dynamic o n smin smax).getLast? = some 0 ∧
  (get_align_your_steps_sigmas_GITS isxl n smin smax).length = n + 1 ∧
  (get_align_your_steps_sigmas_GITS isxl n smin smax).getLast? = some 0 ∧
  (ays_11_sigmas isxl n smin smax).length = n + 1 ∧
  (ays_11_sigmas isxl n smin smax).getLast? = some 0 ∧
  (ays_32_sigmas isxl n smin smax).length = n + 1 ∧
  (ays_32_sigmas isxl n smin smax).getLast? = some 0 ∧
  (get_sigmas_karras o n smin smax).length = n + 1 ∧
  (get_sigmas_karras o n smin smax).getLast? = some 0 ∧
  (o.karras_rho ≠ 0 → (get_sigmas_karras o n smin smax).head? = some smax) ∧
  (get_sigmas_polyexponential o n smin smax).length = n + 1 ∧
  (get_sigmas_polyexponential o n smin smax).getLast? = some 0 ∧
  (get_sigmas_polyexponential o n smin smax).head? = some smax

/-- Resampling behaviour of the align-your-steps family (the amended form of
claim C3): the default, GITS, 11 and 32 variants all resample their reference
table with the shared log-linear helper, while the custom variant resamples
its parsed list with PLAIN linear interpolation in value space. -/
def C3Facts (o : Opts) (isxl : Bool) (n : ℕ) (smin smax : ℝ) (qs : List ℚ) : Prop :=
  get_align_your_steps_sigmas isxl n smin smax
      = loglinear_interp (if isxl then ays_table_sdxl else ays_table_sd15) n ++ [0] ∧
  get_align_your_steps_sigmas_GITS isxl n smin smax
      = loglinear_interp (if isxl then gits_table_sdxl else gits_table_sd15) n ++ [0] ∧
  ays_11_sigmas isxl n smin smax
      = loglinear_interp (if isxl then ays_table_sdxl else ays_table_sd15) n ++ [0] ∧
  ays_32_sigmas isxl n smin smax
      = loglinear_interp (if isxl then ays32_table_sdxl else ays32_table_sd15) n ++ [0] ∧
  get_sigmas_ays_custom o isxl n smin smax
      = npInterp (linspace 0 1 n) (linspace 0 1 qs.length) (qs.map (fun q : ℚ => (q : ℝ))) ++ [0]

/-- Two-run agreement of the generators that read the configuration store:
outputs coincide whenever the two configurations agree on exactly the fields
the generator reads (all other fields may differ arbitrarily). -/
def SameOutputs (ppf : ℝ → ℝ → ℝ → ℝ) (o1 o2 : Opts) (isxl : Bool) (n : ℕ)
    (smin smax : ℝ) (innerSigmas : List ℝ) : Prop :=
  get_sigmas_karras o1 n smin smax = get_sigmas_karras o2 n smin smax ∧
  get_sigmas_exponential o1 n smin smax = get_sigmas_exponential o2 n smin smax ∧
  get_sigmas_polyexponential o1 n smin smax = get_sigmas_polyexponential o2 n smin smax ∧
  get_sigmas_sinusoidal_sf o1 n smin smax = get_sigmas_sinusoidal_sf o2 n smin smax ∧
  get_sigmas_invcosinusoidal_sf o1 n smin smax = get_sigmas_invcosinusoidal_sf o2 n smin smax ∧
  get_sigmas_react_cosinusoidal_dynsf o1 n smin smax
    = get_sigmas_react_cosinusoidal_dynsf o2 n smin smax ∧
  get_sigmas_ays_custom o1 isxl n smin smax = get_sigmas_ays_custom o2 isxl n smin smax ∧
  cosine_scheduler o1 n smin smax = cosine_scheduler o2 n smin smax ∧
  cosexpblend_scheduler o1 n smin smax = cosexpblend_scheduler o2 n smin smax ∧
  phi_scheduler o1 n smin smax = phi_scheduler o2 n smin smax ∧
  get_sigmas_laplace o1 n smin smax = get_sigmas_laplace o2 n smin smax ∧
  get_sigmas_karras_dynamic o1 n smin smax = get_sigmas_karras_dynamic o2 n smin smax ∧
  beta_scheduler ppf o1 n smin smax innerSigmas = beta_scheduler ppf o2 n smin smax innerSigmas

/-- Two-run agreement of the remaining registered generators — the
host-model-dependent ones and the ones that read neither the configuration
store nor the host model: two calls with identical host tables / conversion
functions (and identical model-family flag) return identical outputs.
Together with `SameOutputs` this covers every registered generator except the
sentinel `automatic` entry, whose function reference is `None`. -/
def SameHostOutputs (s2t1 s2t2 t2s1 t2s2 : ℝ → ℝ) (gs1 gs2 : ℕ → List ℝ)
    (ts1 ts2 : ℤ → ℝ) (sig1 sig2 : List ℝ) (isxl1 isxl2 : Bool) (sgm : Bool)
    (n : ℕ) (smin smax : ℝ) : Prop :=
  (gs1 = gs2 → uniform gs1 n smin smax = uniform gs2 n smin smax) ∧
  (s2t1 = s2t2 → t2s1 = t2s2 →
    sgm_uniform s2t1 t2s1 n smin smax = sgm_uniform s2t2 t2s2 n smin smax) ∧
  (sig1 = sig2 → simple_scheduler n smin smax sig1 = simple_scheduler n smin smax sig2) ∧
  (s2t1 = s2t2 → t2s1 = t2s2 →
    normal_scheduler s2t1 t2s1 sgm n smin smax = normal_scheduler s2t2 t2s2 sgm n smin smax) ∧
  (sig1 = sig2 → ddim_scheduler n smin smax sig1 = ddim_scheduler n smin smax sig2) ∧
  (ts1 = ts2 → turbo_scheduler ts1 n smin smax = turbo_scheduler ts2 n smin smax) ∧
  kl_optimal n smin smax = kl_optimal n smin smax ∧
  (isxl1 = isxl2 →
    get_align_your_steps_sigmas isxl1 n smin smax
      = get_align_your_steps_sigmas isxl2 n smin smax ∧
    get_align_your_steps_sigmas_GITS isxl1 n smin smax
      = get_align_your_steps_sigmas_GITS isxl2 n smin smax ∧
    ays_11_sigmas isxl1 n smin smax = ays_11_sigmas isxl2 n smin smax ∧
    ays_32_sigmas isxl1 n smin smax = ays_32_sigmas isxl2 n smin smax)

/-! Helper lemmas. -/

theorem linspace_length (a b : ℝ) (n : ℕ) : (linspace a b n).length = n := by
  rcases n with _ | _ | n
  · rfl
  · rfl
  · simp [linspace]

theorem linspace_eq_cons (a b : ℝ) (n : ℕ) (h : 1 ≤ n) :
    ∃ t, linspace a b n = a :: t := by
  rcases n with _ | _ | n
  · omega
  · exact ⟨[], rfl⟩
  · refine ⟨(List.map Nat.succ (List.range (n + 1))).map
      (fun i : ℕ => a + (b - a) * (i : ℝ) / ((n : ℝ) + 1)), ?_⟩
    rw [show linspace a b (n + 2)
        = (List.range (n + 2)).map (fun i : ℕ => a + (b - a) * (i : ℝ) / ((n : ℝ) + 1)) from rfl,
      List.range_succ_eq_map, List.map_cons]
    simp

theorem linspace_head (a b : ℝ) (n : ℕ) (h : 1 ≤ n) : (linspace a b n).head? = some a := by
  obtain ⟨t, ht⟩ := linspace_eq_cons a b n h
  rw [ht]; rfl

theorem dedupIdx_length_le : ∀ (last : ℤ) (l : List ℤ), (dedupIdx last l).length ≤ l.length := by
  intro last l
  induction l generalizing last with
  | nil => simp [dedupIdx]
  | cons t rest ih =>
    simp only [dedupIdx]
    split
    · exact le_trans (ih t) (Nat.le_succ _)
    · exact Nat.succ_le_succ (ih t)

theorem linspace_chain_le (a b : ℝ) (hab : a ≤ b) (n : ℕ) :
    List.Chain' (· ≤ ·) (linspace a b n) := by
  rcases n with _ | _ | n
  · simp [linspace]
  · simp [linspace]
  · rw [show linspace a b (n + 2)
        = (List.range (n + 2)).map (fun i : ℕ => a + (b - a) * (i : ℝ) / ((n : ℝ) + 1)) from rfl,
      List.chain'_map]
    refine (List.chain'_range_succ _ _).2 ?_
    intro m hm
    have hba : (0 : ℝ) ≤ b - a := sub_nonneg.2 hab
    have hn1 : (0 : ℝ) < (n : ℝ) + 1 := by positivity
    have hmul : (b - a) * (m : ℝ) ≤ (b - a) * ((m : ℝ) + 1) := by nlinarith
    have hdiv := div_le_div_of_nonneg_right hmul (le_of_lt hn1)
    push_cast
    linarith

theorem linspace_chain_lt (a b : ℝ) (hab : a < b) (n : ℕ) :
    List.Chain' (· < ·) (linspace a b n) := by
  rcases n with _ | _ | n
  · simp [linspace]
  · simp [linspace]
  · rw [show linspace a b (n + 2)
        = (List.range (n + 2)).map (fun i : ℕ => a + (b - a) * (i : ℝ) / ((n : ℝ) + 1)) from rfl,
      List.chain'_map]
    refine (List.chain'_range_succ _ _).2 ?_
    intro m hm
    have hba : (0 : ℝ) < b - a := sub_pos.2 hab
    have hn1 : (0 : ℝ) < (n : ℝ) + 1 := by positivity
    have hmul : (b - a) * (m : ℝ) < (b - a) * ((m : ℝ) + 1) := by nlinarith
    have hdiv := (div_lt_div_iff_of_pos_right hn1).2 hmul
    push_cast
    linarith

theorem chain'_zip_fst {r : ℝ → ℝ → Prop} :
    ∀ (xs ys : List ℝ), List.Chain' r xs →
      List.Chain' (fun p q : ℝ × ℝ => r p.1 q.1) (xs.zip ys) := by
  intro xs
  induction xs with
  | nil => intro ys _; simp
  | cons x xs ih =>
    intro ys hx
    cases ys with
    | nil => simp
    | cons y ys =>
      cases xs with
      | nil => simp
      | cons x2 xs2 =>
        cases ys with
        | nil => simp [List.zip_cons_cons]
        | cons y2 ys2 =>
          rw [List.zip_cons_cons, List.zip_cons_cons, List.chain'_cons]
          refine ⟨(List.chain'_cons.1 hx).1, ?_⟩
          rw [← List.zip_cons_cons]
          exact ih (y2 :: ys2) (List.chain'_cons.1 hx).2

theorem chain'_zip_snd {r : ℝ → ℝ → Prop} :
    ∀ (xs ys : List ℝ), List.Chain' r ys →
      List.Chain' (fun p q : ℝ × ℝ => r p.2 q.2) (xs.zip ys) := by
  intro xs
  induction xs with
  | nil => intro ys _; simp
  | cons x xs ih =>
    intro ys hy
    cases ys with
    | nil => simp
    | cons y ys =>
      cases xs with
      | nil => simp
      | cons x2 xs2 =>
        cases ys with
        | nil => simp [List.zip_cons_cons]
        | cons y2 ys2 =>
          rw [List.zip_cons_cons, List.zip_cons_cons, List.chain'_cons]
          refine ⟨(List.chain'_cons.1 hy).1, ?_⟩
          rw [← List.zip_cons_cons]
          exact ih (y2 :: ys2) (List.chain'_cons.1 hy).2

theorem chain'_fst_lt_pairwise {pts : List (ℝ × ℝ)}
    (h : List.Chain' (fun p q : ℝ × ℝ => p.1 < q.1) pts) :
    List.Pairwise (fun p q : ℝ × ℝ => p.1 < q.1) pts := by
  letI : IsTrans (ℝ × ℝ) (fun p q : ℝ × ℝ => p.1 < q.1) :=
    ⟨fun a b c h1 h2 => lt_trans h1 h2⟩
  exact List.chain'_iff_pairwise.1 h

theorem le_interpPts (x : ℝ) : ∀ (p : ℝ × ℝ) (ps : List (ℝ × ℝ)),
    List.Chain' (fun s t : ℝ × ℝ => s.1 < t.1) (p :: ps) →
    List.Chain' (fun s t : ℝ × ℝ => s.2 ≤ t.2) (p :: ps) →
    p.2 ≤ interpPts x (p :: ps) := by
  intro p ps
  induction ps generalizing p with
  | nil =>
    intro _ _
    simp [interpPts]
  | cons q ps ih =>
    intro h1 h2
    have hpq1 : p.1 < q.1 := (List.chain'_cons.1 h1).1
    have hpq2 : p.2 ≤ q.2 := (List.chain'_cons.1 h2).1
    by_cases hx1 : x ≤ p.1
    · simp [interpPts, hx1]
    · by_cases hx2 : x ≤ q.1
      · have hfrac : 0 ≤ (x - p.1) * (q.2 - p.2) / (q.1 - p.1) := by
          apply div_nonneg
          · apply mul_nonneg <;> linarith
          · linarith
        have hL : interpPts x (p :: q :: ps)
            = p.2 + (x - p.1) * (q.2 - p.2) / (q.1 - p.1) := by
          simp [interpPts, hx1, hx2]
        rw [hL]
        linarith
      · have hL : interpPts x (p :: q :: ps) = interpPts x (q :: ps) := by
          simp [interpPts, hx1, hx2]
        rw [hL]
        exact le_trans hpq2 (ih q (List.chain'_cons.1 h1).2 (List.chain'_cons.1 h2).2)

theorem interpPts_mono {x x' : ℝ} (hx : x ≤ x') : ∀ (pts : List (ℝ × ℝ)),
    List.Chain' (fun s t : ℝ × ℝ => s.1 < t.1) pts →
    List.Chain' (fun s t : ℝ × ℝ => s.2 ≤ t.2) pts →
    interpPts x pts ≤ interpPts x' pts := by
  intro pts
  induction pts with
  | nil => intro _ _; simp [interpPts]
  | cons p rest ih =>
    intro h1 h2
    cases rest with
    | nil => simp [interpPts]
    | cons q ps =>
      have hpq1 : p.1 < q.1 := (List.chain'_cons.1 h1).1
      have hpq2 : p.2 ≤ q.2 := (List.chain'_cons.1 h2).1
      by_cases hx1 : x ≤ p.1
      · have hL : interpPts x (p :: q :: ps) = p.2 := by simp [interpPts, hx1]
        rw [hL]
        exact le_interpPts x' p (q :: ps) h1 h2
      · have hx'1 : ¬ x' ≤ p.1 := fun hc => hx1 (le_trans hx hc)
        by_cases hx2 : x ≤ q.1
        · have hL : interpPts x (p :: q :: ps)
              = p.2 + (x - p.1) * (q.2 - p.2) / (q.1 - p.1) := by
            simp [interpPts, hx1, hx2]
          have hc : 0 < q.1 - p.1 := by linarith
          have hd : 0 ≤ q.2 - p.2 := by linarith
          by_cases hx'2 : x' ≤ q.1
          · have hR : interpPts x' (p :: q :: ps)
                = p.2 + (x' - p.1) * (q.2 - p.2) / (q.1 - p.1) := by
              simp [interpPts, hx'1, hx'2]
            rw [hL, hR]
            have hmul : (x - p.1) * (q.2 - p.2) ≤ (x' - p.1) * (q.2 - p.2) := by nlinarith
            have := div_le_div_of_nonneg_right hmul (le_of_lt hc)
            linarith
          · have hR : interpPts x' (p :: q :: ps) = interpPts x' (q :: ps) := by
              simp [interpPts, hx'1, hx'2]
            rw [hL, hR]
            have h1t := (List.chain'_cons.1 h1).2
            have h2t := (List.chain'_cons.1 h2).2
            have hq : q.2 ≤ interpPts x' (q :: ps) := le_interpPts x' q ps h1t h2t
            have hbound : (x - p.1) * (q.2 - p.2) / (q.1 - p.1) ≤ q.2 - p.2 := by
              rw [div_le_iff₀ hc]
              nlinarith
            linarith
        · have hx'2 : ¬ x' ≤ q.1 := fun hc => hx2 (le_trans hx hc)
          have hL : interpPts x (p :: q :: ps) = interpPts x (q :: ps) := by
            simp [interpPts, hx1, hx2]
          have hR : interpPts x' (p :: q :: ps) = interpPts x' (q :: ps) := by
            simp [interpPts, hx'1, hx'2]
          rw [hL, hR]
          exact ih (List.chain'_cons.1 h1).2 (List.chain'_cons.1 h2).2

theorem interpPts_node : ∀ (pts : List (ℝ × ℝ)),
    List.Pairwise (fun s t : ℝ × ℝ => s.1 < t.1) pts →
    ∀ (k : ℕ) (hk : k < pts.length), interpPts pts[k].1 pts = pts[k].2 := by
  intro pts
  induction pts with
  | nil => intro _ k hk; simp at hk
  | cons p rest ih =>
    intro hp k hk
    cases rest with
    | nil =>
      have hk0 : k = 0 := by
        simp only [List.length_cons, List.length_nil] at hk
        omega
      subst hk0
      simp [interpPts]
    | cons q ps =>
      have hpq : p.1 < q.1 := (List.pairwise_cons.1 hp).1 q (by simp)
      rcases k with _ | _ | k
      · simp [interpPts]
      · simp only [List.getElem_cons_succ, List.getElem_cons_zero]
        have hq1 : ¬ q.1 ≤ p.1 := not_le.2 hpq
        have hL : interpPts q.1 (p :: q :: ps)
            = p.2 + (q.1 - p.1) * (q.2 - p.2) / (q.1 - p.1) := by
          simp [interpPts, hq1]
        rw [hL]
        have hne : q.1 - p.1 ≠ 0 := ne_of_gt (by linarith)
        field_simp
      · simp only [List.getElem_cons_succ]
        have hk' : k < ps.length := by
          simp only [List.length_cons] at hk
          omega
        have htmem : ps[k] ∈ ps := List.getElem_mem hk'
        have hpt : p.1 < ps[k].1 :=
          (List.pairwise_cons.1 hp).1 _ (List.mem_cons_of_mem q htmem)
        have hqt : q.1 < ps[k].1 :=
          (List.pairwise_cons.1 (List.pairwise_cons.1 hp).2).1 _ htmem
        have hskip : interpPts ps[k].1 (p :: q :: ps) = interpPts ps[k].1 (q :: ps) := by
          simp [interpPts, not_le.2 hpt, not_le.2 hqt]
        rw [hskip]
        have := ih (List.pairwise_cons.1 hp).2 (k + 1) (by simpa using hk')
        simpa using this

theorem npInterp_self (xs ys : List ℝ) (hlen : ys.length = xs.length)
    (hx : List.Chain' (· < ·) xs) : npInterp xs xs ys = ys := by
  apply List.ext_getElem
  · simp [npInterp, hlen]
  · intro i h1 h2
    simp only [npInterp, List.getElem_map]
    have hpw : List.Pairwise (fun s t : ℝ × ℝ => s.1 < t.1) (xs.zip ys) :=
      chain'_fst_lt_pairwise (chain'_zip_fst xs ys hx)
    have hzlen : i < (xs.zip ys).length := by
      simp only [List.length_zip, hlen, min_self]
      simp only [npInterp, List.length_map] at h1
      exact h1
    have hnode := interpPts_node (xs.zip ys) hpw i hzlen
    rw [List.getElem_zip] at hnode
    exact hnode

theorem chain'_map_of_mono {f : ℝ → ℝ} (hf : ∀ a b : ℝ, a ≤ b → f a ≤ f b)
    {l : List ℝ} (h : List.Chain' (· ≤ ·) l) : List.Chain' (· ≤ ·) (l.map f) :=
  (List.chain'_map f).2 (h.imp hf)

theorem chain'_le_map_log : ∀ (l : List ℝ), (∀ y ∈ l, 0 < y) →
    List.Chain' (· ≤ ·) l → List.Chain' (· ≤ ·) (l.map Real.log) := by
  intro l
  induction l with
  | nil => intro _ _; simp
  | cons a rest ih =>
    intro hpos h
    cases rest with
    | nil => simp
    | cons b rest2 =>
      rw [List.map_cons, List.map_cons, List.chain'_cons]
      constructor
      · exact Real.log_le_log (hpos a (by simp)) ((List.chain'_cons.1 h).1)
      · rw [← List.map_cons]
        exact ih (fun y hy => hpos y (List.mem_cons_of_mem a hy)) (List.chain'_cons.1 h).2

theorem loglinear_length (t : List ℝ) (k : ℕ) : (loglinear_interp t k).length = k := by
  simp [loglinear_interp, npInterp, linspace_length]

theorem loglinear_nonincr (t : List ℝ) (k : ℕ) (hpos : ∀ y ∈ t, 0 < y)
    (hdesc : List.Chain' (fun a b : ℝ => b ≤ a) t) :
    NonIncr (loglinear_interp t k) ∧ ∀ y ∈ loglinear_interp t k, 0 < y := by
  have hrevle : List.Chain' (· ≤ ·) t.reverse := by
    rw [List.chain'_reverse]
    exact hdesc.imp (fun a b h => h)
  have hys : List.Chain' (· ≤ ·) (t.reverse.map Real.log) :=
    chain'_le_map_log t.reverse (fun y hy => hpos y (List.mem_reverse.1 hy)) hrevle
  have hxs : List.Chain' (· < ·) (linspace 0 1 t.length) :=
    linspace_chain_lt 0 1 (by norm_num) t.length
  have hzf : List.Chain' (fun p q : ℝ × ℝ => p.1 < q.1)
      ((linspace 0 1 t.length).zip (t.reverse.map Real.log)) :=
    chain'_zip_fst _ _ hxs
  have hzs : List.Chain' (fun p q : ℝ × ℝ => p.2 ≤ q.2)
      ((linspace 0 1 t.length).zip (t.reverse.map Real.log)) :=
    chain'_zip_snd _ _ hys
  have hchain : List.Chain' (· ≤ ·)
      (npInterp (linspace 0 1 k) (linspace 0 1 t.length) (t.reverse.map Real.log)) := by
    unfold npInterp
    refine (List.chain'_map _).2 ?_
    refine (linspace_chain_le 0 1 (by norm_num) k).imp ?_
    intro a b hab
    exact interpPts_mono hab _ hzf hzs
  constructor
  · unfold NonIncr loglinear_interp
    rw [List.chain'_reverse]
    have : List.Chain' (· ≤ ·)
        ((npInterp (linspace 0 1 k) (linspace 0 1 t.length) (t.reverse.map Real.log)).map
          Real.exp) :=
      chain'_map_of_mono (fun a b hab => Real.exp_le_exp.2 hab) hchain
    exact this.imp (fun a b h => h)
  · intro y hy
    simp only [loglinear_interp, List.mem_reverse, List.mem_map] at hy
    obtain ⟨z, _, hz⟩ := hy
    rw [← hz]
    exact Real.exp_pos z

theorem ays_length (isxl : Bool) (n : ℕ) (smin smax : ℝ) :
    (get_align_your_steps_sigmas isxl n smin smax).length = n + 1 := by
  by_cases hb : n = (if isxl then ays_table_sdxl else ays_table_sd15).length
  · simp [get_align_your_steps_sigmas, hb]
  · simp [get_align_your_steps_sigmas, hb, loglinear_length]

theorem ays_last (isxl : Bool) (n : ℕ) (smin smax : ℝ) :
    (get_align_your_steps_sigmas isxl n smin smax).getLast? = some 0 := by
  by_cases hb : n = (if isxl then ays_table_sdxl else ays_table_sd15).length <;>
    simp [get_align_your_steps_sigmas, hb, List.getLast?_concat]

theorem ays_custom_length (o : Opts) (isxl : Bool) (n : ℕ) (smin smax : ℝ) :
    (get_sigmas_ays_custom o isxl n smin smax).length = n + 1 := by
  rcases hp : parseSigmaList o.ays_custom_sigmas with _ | qs
  · simp only [get_sigmas_ays_custom, hp]
    exact ays_length isxl n smin smax
  · simp only [get_sigmas_ays_custom, hp]
    by_cases hb : n = (qs.map (fun q : ℚ => (q : ℝ))).length
    · rw [if_neg (not_not.2 hb)]
      simp [← hb]
    · rw [if_pos hb]
      simp [npInterp, linspace_length]

theorem ays_custom_last (o : Opts) (isxl : Bool) (n : ℕ) (smin smax : ℝ) :
    (get_sigmas_ays_custom o isxl n smin smax).getLast? = some 0 := by
  rcases hp : parseSigmaList o.ays_custom_sigmas with _ | qs
  · simp only [get_sigmas_ays_custom, hp]
    exact ays_last isxl n smin smax
  · simp only [get_sigmas_ays_custom, hp, List.getLast?_concat]

theorem gits_length (isxl : Bool) (n : ℕ) (smin smax : ℝ) :
    (get_align_your_steps_sigmas_GITS isxl n smin smax).length = n + 1 := by
  by_cases hb : n = (if isxl then gits_table_sdxl else gits_table_sd15).length
  · simp [get_align_your_steps_sigmas_GITS, hb]
  · simp [get_align_your_steps_sigmas_GITS, hb, loglinear_length]

theorem gits_last (isxl : Bool) (n : ℕ) (smin smax : ℝ) :
    (get_align_your_steps_sigmas_GITS isxl n smin smax).getLast? = some 0 := by
  by_cases hb : n = (if isxl then gits_table_sdxl else gits_table_sd15).length <;>
    simp [get_align_your_steps_sigmas_GITS, hb, List.getLast?_concat]

theorem ays11_length (isxl : Bool) (n : ℕ) (smin smax : ℝ) :
    (ays_11_sigmas isxl n smin smax).length = n + 1 := by
  by_cases hb : n = (if isxl then ays_table_sdxl else ays_table_sd15).length
  · simp [ays_11_sigmas, hb]
  · simp [ays_11_sigmas, hb, loglinear_length]

theorem ays11_last (isxl : Bool) (n : ℕ) (smin smax : ℝ) :
    (ays_11_sigmas isxl n smin smax).getLast? = some 0 := by
  by_cases hb : n = (if isxl then ays_table_sdxl else ays_table_sd15).length <;>
    simp [ays_11_sigmas, hb, List.getLast?_concat]

theorem ays32_length (isxl : Bool) (n : ℕ) (smin smax : ℝ) :
    (ays_32_sigmas isxl n smin smax).length = n + 1 := by
  by_cases hb : n = (if isxl then ays32_table_sdxl else ays32_table_sd15).length
  · simp [ays_32_sigmas, hb]
  · simp [ays_32_sigmas, hb, loglinear_length]

theorem ays32_last (isxl : Bool) (n : ℕ) (smin smax : ℝ) :
    (ays_32_sigmas isxl n smin smax).getLast? = some 0 := by
  by_cases hb : n = (if isxl then ays32_table_sdxl else ays32_table_sd15).length <;>
    simp [ays_32_sigmas, hb, List.getLast?_concat]

theorem cosine_length (o : Opts) (n : ℕ) (smin smax : ℝ) :
    (cosine_scheduler o n smin smax).length = n + 1 := by
  by_cases hn : n = 1 <;> simp [cosine_scheduler, hn]

theorem cosine_last (o : Opts) (n : ℕ) (smin smax : ℝ) :
    (cosine_scheduler o n smin smax).getLast? = some 0 := by
  simp [cosine_scheduler, List.getLast?_concat]

theorem cosexpblend_length (o : Opts) (n : ℕ) (smin smax : ℝ) :
    (cosexpblend_scheduler o n smin smax).length = n + 1 := by
  by_cases hn : n = 1 <;> simp [cosexpblend_scheduler, hn]

theorem cosexpblend_last (o : Opts) (n : ℕ) (smin smax : ℝ) :
    (cosexpblend_scheduler o n smin smax).getLast? = some 0 := by
  simp [cosexpblend_scheduler, List.getLast?_concat]

theorem phi_length (o : Opts) (n : ℕ) (smin smax : ℝ) :
    (phi_scheduler o n smin smax).length = n + 1 := by
  by_cases hn : n = 1 <;> simp [phi_scheduler, hn]

theorem phi_last (o : Opts) (n : ℕ) (smin smax : ℝ) :
    (phi_scheduler o n smin smax).getLast? = some 0 := by
  simp [phi_scheduler, List.getLast?_concat]

/-! Claim theorems. -/

/-- Claim C7: the log-linear interpolation helper is idempotent at the
original length — resampling a (descending, positive) table to its own length
returns the original values exactly (over `ℝ`). -/
theorem c7_loglinear_idempotent (t : List ℝ)
    (hdesc : List.Chain' (fun a b : ℝ => b < a) t)
    (hpos : ∀ y ∈ t, 0 < y) : loglinear_interp t t.length = t := by
  simp only [loglinear_interp]
  have hlen : (t.reverse.map Real.log).length = (linspace 0 1 t.length).length := by
    simp [linspace_length]
  rw [npInterp_self _ _ hlen (linspace_chain_lt 0 1 (by norm_num) t.length), List.map_map]
  have hmap : List.map (Real.exp ∘ Real.log) t.reverse = List.map id t.reverse := by
    apply List.map_congr_left
    intro a ha
    have : 0 < a := hpos a (List.mem_reverse.1 ha)
    simp [Function.comp, Real.exp_log this]
  rw [hmap, List.map_id, List.reverse_reverse]

/-- Witness for C7 at the concrete descending positive table `[4, 2, 1]`. -/
theorem c7_witness :
    List.Chain' (fun a b : ℝ => b < a) [4, 2, 1] ∧ (∀ y ∈ ([4, 2, 1] : List ℝ), 0 < y) ∧
    loglinear_interp [4, 2, 1] ([4, 2, 1] : List ℝ).length = [4, 2, 1] := by
  have hdesc : List.Chain' (fun a b : ℝ => b < a) [4, 2, 1] := by
    norm_num [List.chain'_cons]
  have hpos : ∀ y ∈ ([4, 2, 1] : List ℝ), 0 < y := by
    intro y hy
    simp only [List.mem_cons, List.not_mem_nil, or_false] at hy
    rcases hy with rfl | rfl | rfl <;> norm_num
  exact ⟨hdesc, hpos, c7_loglinear_idempotent [4, 2, 1] hdesc hpos⟩

theorem nonincr_append_zero {l : List ℝ} (h : NonIncr l) (hpos : ∀ y ∈ l, 0 ≤ y) :
    NonIncr (l ++ [0]) := by
  rw [NonIncr, List.chain'_append]
  refine ⟨h, List.chain'_singleton 0, ?_⟩
  intro x hx y hy
  simp only [List.head?_cons, Option.mem_def, Option.some.injEq] at hy
  subst hy
  exact hpos x (List.mem_of_mem_getLast? hx)

theorem ays_table_pos (isxl : Bool) :
    ∀ y ∈ (if isxl then ays_table_sdxl else ays_table_sd15), (0 : ℝ) < y := by
  cases isxl <;>
    · intro y hy
      simp only [Bool.false_eq_true, if_false, if_true, ays_table_sdxl, ays_table_sd15,
        List.mem_cons, List.not_mem_nil, or_false] at hy
      rcases hy with rfl | rfl | rfl | rfl | rfl | rfl | rfl | rfl | rfl | rfl | rfl <;> norm_num

theorem ays_table_desc (isxl : Bool) :
    List.Chain' (fun a b : ℝ => b ≤ a) (if isxl then ays_table_sdxl else ays_table_sd15) := by
  cases isxl <;> norm_num [ays_table_sdxl, ays_table_sd15, List.chain'_cons]

/-- Claim C2: resolving the alias "SGMUniform" through the registry yields the
same descriptor as resolving the id "sgm_uniform"; the lookup key space covers
ids, labels and aliases (the alias step is modelled from the spec, the
id/label step is the in-source `schedulers_map`). -/
theorem c2_alias_resolves_same_descriptor :
    resolve "SGMUniform" = resolve "sgm_uniform" ∧
    resolve "sgm_uniform" = schedulers_map "sgm_uniform" ∧
    resolve "sgm_uniform"
      = some ⟨"sgm_uniform", "SGM Uniform", some "sgm_uniform", -1, true, ["SGMUniform"]⟩ := by
  decide

/-- Claim C6, counterexample to the fail-fast part: registering two
descriptors under the same id is NOT a build-time error — the dict merge is
total and silently keeps the later descriptor, shadowing the earlier one. -/
theorem c6_counterexample_silent_overwrite :
    build_schedulers_map
        [⟨"dup", "L1", none, -1, false, []⟩, ⟨"dup", "L2", none, -1, false, []⟩] "dup"
      = some ⟨"dup", "L2", none, -1, false, []⟩ ∧
    (⟨"dup", "L1", none, -1, false, []⟩ : Scheduler) ≠ ⟨"dup", "L2", none, -1, false, []⟩ := by
  decide

/-- Claim C6, amended: the combined id/label key space of the actual registry
has no duplicate key, and every registered descriptor is reachable under both
its id and its label; but the construction is a plain dict merge with
last-wins semantics, so a hypothetical collision would be silently
overwritten, not rejected (see the counterexample). -/
theorem c6_amended_registry_keys_unique :
    registryKeys.Nodup ∧
    ∀ d ∈ schedulers, schedulers_map d.name = some d ∧ schedulers_map d.label = some d := by
  decide

/-- Claim C5: when the configured custom sigma string is malformed (the parse
of some entry raises), the custom align-your-steps generator returns exactly
the default align-your-steps output for the same `n`, `sigma_min`,
`sigma_max` and model flag, for every `n`. -/
theorem c5_malformed_custom_falls_back (o : Opts) (isxl : Bool) (n : ℕ) (smin smax : ℝ)
    (hbad : o.ays_custom_sigmas = "[1,2,abc]") :
    get_sigmas_ays_custom o isxl n smin smax = get_align_your_steps_sigmas isxl n smin smax := by
  have h : parseSigmaList o.ays_custom_sigmas = none := by rw [hbad]; decide
  simp only [get_sigmas_ays_custom, h]

/-- Witness for C5 at the concrete malformed input of the spec. -/
theorem c5_witness :
    ({ ays_custom_sigmas := "[1,2,abc]" } : Opts).ays_custom_sigmas = "[1,2,abc]" ∧
    get_sigmas_ays_custom { ays_custom_sigmas := "[1,2,abc]" } false 7 1 2
      = get_align_your_steps_sigmas false 7 1 2 :=
  ⟨rfl, c5_malformed_custom_falls_back _ false 7 1 2 rfl⟩

/-- Claim C9: for `n ≥ 1` and a non-empty host sigma table, the beta
generator's output has length at most `n + 1` (consecutive deduplication may
shrink it) and its last element is `0.0`. -/
theorem c9_beta_shape (ppf : ℝ → ℝ → ℝ → ℝ) (o : Opts) (n : ℕ) (smin smax : ℝ)
    (sig : List ℝ) (hn : 1 ≤ n) (hs : sig ≠ []) :
    (beta_scheduler ppf o n smin smax sig).length ≤ n + 1 ∧
    (beta_scheduler ppf o n smin smax sig).getLast? = some 0 := by
  constructor
  · have h1 := dedupIdx_length_le (-1)
      (((List.range n).map (fun i : ℕ => 1 - (i : ℝ) / (n : ℝ))).map
        (fun t => rint (ppf t o.beta_dist_alpha o.beta_dist_beta * ((sig.length : ℝ) - 1))))
    simp only [List.length_map, List.length_range] at h1
    simp only [beta_scheduler, List.length_append, List.length_map, List.length_cons,
      List.length_nil]
    omega
  · simp only [beta_scheduler, List.getLast?_concat]

/-- Witness for C9 at a concrete quantile function, table and step count. -/
theorem c9_witness :
    1 ≤ 1 ∧ ([(1 : ℝ)] ≠ []) ∧
    ((beta_scheduler (fun t _ _ => t) {} 1 0 1 [1]).length ≤ 1 + 1 ∧
      (beta_scheduler (fun t _ _ => t) {} 1 0 1 [1]).getLast? = some 0) :=
  ⟨le_refl 1, List.cons_ne_nil 1 [], c9_beta_shape (fun t _ _ => t) {} 1 0 1 [1]
    (le_refl 1) (List.cons_ne_nil 1 [])⟩

/-- Claim C10: every registered generator is deterministic — outputs depend
only on the declared inputs (`n`, the sigma range, the configuration fields
the generator reads, the host model's tables / conversion functions and the
deterministic Beta quantile function `ppf`; there is no random input
anywhere).  For the configuration-reading generators this is a two-run frame
property: configuration records agreeing on exactly the fields a generator
reads give identical outputs even when every other field differs; for the
host-model-dependent generators, identical host tables / conversion functions
give identical outputs. -/
theorem c10_generators_deterministic (ppf : ℝ → ℝ → ℝ → ℝ) (o1 o2 : Opts)
    (s2t1 s2t2 t2s1 t2s2 : ℝ → ℝ) (gs1 gs2 : ℕ → List ℝ) (ts1 ts2 : ℤ → ℝ)
    (sig1 sig2 : List ℝ) (isxl1 isxl2 : Bool) (sgm : Bool) (isxl : Bool)
    (n : ℕ) (smin smax : ℝ) (innerSigmas : List ℝ)
    (h0 : o1.karras_rho = o2.karras_rho)
    (h1 : o1.exponential_shrink_factor = o2.exponential_shrink_factor)
    (h2 : o1.polyexponential_rho = o2.polyexponential_rho)
    (h3 : o1.sinusoidal_sf_factor = o2.sinusoidal_sf_factor)
    (h4 : o1.invcosinusoidal_sf_factor = o2.invcosinusoidal_sf_factor)
    (h5 : o1.react_cosinusoidal_dynsf_factor = o2.react_cosinusoidal_dynsf_factor)
    (h6 : o1.ays_custom_sigmas = o2.ays_custom_sigmas)
    (h7 : o1.cosine_sf_factor = o2.cosine_sf_factor)
    (h8 : o1.cosexpblend_exp_decay = o2.cosexpblend_exp_decay)
    (h9 : o1.phi_power = o2.phi_power)
    (h10 : o1.laplace_mu = o2.laplace_mu)
    (h11 : o1.laplace_beta = o2.laplace_beta)
    (h12 : o1.beta_dist_alpha = o2.beta_dist_alpha)
    (h13 : o1.beta_dist_beta = o2.beta_dist_beta)
    (h14 : o1.karras_dynamic_rho = o2.karras_dynamic_rho) :
    SameOutputs ppf o1 o2 isxl n smin smax innerSigmas ∧
    SameHostOutputs s2t1 s2t2 t2s1 t2s2 gs1 gs2 ts1 ts2 sig1 sig2 isxl1 isxl2 sgm
      n smin smax := by
  constructor
  · obtain ⟨a1, a2, a3, a4, a5, a6, a7, a8, a9, a10, a11, a12, a13, a14, a15⟩ := o1
    obtain ⟨b1, b2, b3, b4, b5, b6, b7, b8, b9, b10, b11, b12, b13, b14, b15⟩ := o2
    dsimp only at h0 h1 h2 h3 h4 h5 h6 h7 h8 h9 h10 h11 h12 h13 h14
    subst h0 h1 h2 h3 h4 h5 h6 h7 h8 h9 h10 h11 h12 h13 h14
    exact ⟨rfl, rfl, rfl, rfl, rfl, rfl, rfl, rfl, rfl, rfl, rfl, rfl, rfl⟩
  · refine ⟨?_, ?_, ?_, ?_, ?_, ?_, rfl, ?_⟩
    · intro hg; subst hg; rfl
    · intro ha hb; subst ha; subst hb; rfl
    · intro hs; subst hs; rfl
    · intro ha hb; subst ha; subst hb; rfl
    · intro hs; subst hs; rfl
    · intro ht; subst ht; rfl
    · intro hi; subst hi; exact ⟨rfl, rfl, rfl, rfl⟩

/-- Witness for C10 at concrete configurations, host functions and tables. -/
theorem c10_witness :
    SameOutputs (fun t a b => t + a + b) {} {} false 2 1 2 [1, 0.5] ∧
    SameHostOutputs (fun x => x + 1) (fun x => x + 1) (fun x => x - 1) (fun x => x - 1)
      (fun k => [(k : ℝ), 0]) (fun k => [(k : ℝ), 0]) (fun z => (z : ℝ)) (fun z => (z : ℝ))
      [1, 0.5] [1, 0.5] false false false 2 1 2 := by
  apply c10_generators_deterministic <;> rfl

/-- Claim C4: for `align_your_steps`, when `n` equals the fixed table length
(11) the output is exactly the fixed table followed by `0.0`; when `n`
differs, the output has length `n + 1` and is monotonically non-increasing. -/
theorem c4_align_your_steps (isxl : Bool) (n : ℕ) (smin smax : ℝ) :
    (n = 11 →
      get_align_your_steps_sigmas isxl n smin smax
        = (if isxl then ays_table_sdxl else ays_table_sd15) ++ [0]) ∧
    (n ≠ 11 →
      (get_align_your_steps_sigmas isxl n smin smax).length = n + 1 ∧
      NonIncr (get_align_your_steps_sigmas isxl n smin smax)) := by
  have htlen : (if isxl then ays_table_sdxl else ays_table_sd15).length = 11 := by
    cases isxl <;> simp [ays_table_sdxl, ays_table_sd15]
  constructor
  · intro hn
    subst hn
    simp [get_align_your_steps_sigmas, htlen]
  · intro hn
    have hcond : n ≠ (if isxl then ays_table_sdxl else ays_table_sd15).length := by
      rw [htlen]; exact hn
    have hout : get_align_your_steps_sigmas isxl n smin smax
        = loglinear_interp (if isxl then ays_table_sdxl else ays_table_sd15) n ++ [0] := by
      simp only [get_align_your_steps_sigmas]
      rw [if_pos hcond]
    rw [hout]
    constructor
    · simp [loglinear_length]
    · obtain ⟨hni, hpos⟩ := loglinear_nonincr _ n (ays_table_pos isxl) (ays_table_desc isxl)
      exact nonincr_append_zero hni (fun y hy => le_of_lt (hpos y hy))

/-- Witness for C4 on the resampling branch at `n = 5`. -/
theorem c4_witness :
    (5 : ℕ) ≠ 11 ∧
    (get_align_your_steps_sigmas false 5 1 2).length = 5 + 1 ∧
    NonIncr (get_align_your_steps_sigmas false 5 1 2) := by
  have h := (c4_align_your_steps false 5 1 2).2 (by decide)
  exact ⟨by decide, h.1, h.2⟩

/-- Claim C8: the cosine, cosine-exponential-blend and phi generators
special-case `n = 1` to produce the single value `sqrt(sigma_max)` (followed
by the `0.0` terminator that every generator of this family concatenates). -/
theorem c8_n_one_special_case (o : Opts) (smin smax : ℝ) :
    cosine_scheduler o 1 smin smax = [Real.sqrt smax, 0] ∧
    cosexpblend_scheduler o 1 smin smax = [Real.sqrt smax, 0] ∧
    phi_scheduler o 1 smin smax = [Real.sqrt smax, 0] := by
  have hsq : smax ^ (0.5 : ℝ) = Real.sqrt smax := by
    rw [Real.sqrt_eq_rpow]
    norm_num
  refine ⟨?_, ?_, ?_⟩ <;>
    simp [cosine_scheduler, cosexpblend_scheduler, phi_scheduler, hsq]

/-- Claim C1 counterexample: the Pattern-A generator
`get_sigmas_sinusoidal_sf` at `n = 2`, `sigma_min = 1`, `sigma_max = 2`
returns 2 values, not `n + 1 = 3` — the sinusoidal family appends no `0.0`
terminator. -/
theorem c1_counterexample_sinusoidal_length :
    ¬ (get_sigmas_sinusoidal_sf {} 2 1 2).length = 2 + 1 := by
  have h : (get_sigmas_sinusoidal_sf {} 2 1 2).length = 2 := by
    simp [get_sigmas_sinusoidal_sf, linspace_length]
  omega

/-- Claim C1, amended: shape facts of the Pattern-A generators as the code
actually computes them — see `C1Facts`. -/
theorem c1_amended_pattern_a_shapes (o : Opts) (isxl : Bool) (n : ℕ) (smin smax : ℝ)
    (hn : 1 ≤ n) (h0 : 0 < smin) (h1 : smin < smax) :
    C1Facts o isxl n smin smax := by
  have hmax : (0 : ℝ) < smax := lt_trans h0 h1
  have hne : smax ≠ 0 := ne_of_gt hmax
  obtain ⟨t1, ht1⟩ := linspace_eq_cons (Real.log smax) (Real.log smin) n hn
  obtain ⟨t2, ht2⟩ := linspace_eq_cons 0 1 n hn
  obtain ⟨t3, ht3⟩ := linspace_eq_cons 1 0 n hn
  refine ⟨?_, ?_, ?_, ?_, ?_, ?_, ?_, ?_, ?_, ?_, ?_,
    ays_length isxl n smin smax, ays_last isxl n smin smax,
    ays_custom_length o isxl n smin smax, ays_custom_last o isxl n smin smax,
    cosine_length o n smin smax, cosine_last o n smin smax,
    cosexpblend_length o n smin smax, cosexpblend_last o n smin smax,
    phi_length o n smin smax, phi_last o n smin smax,
    ?_, ?_, ?_, ?_, ?_, ?_,
    gits_length isxl n smin smax, gits_last isxl n smin smax,
    ays11_length isxl n smin smax, ays11_last isxl n smin smax,
    ays32_length isxl n smin smax, ays32_last isxl n smin smax,
    ?_, ?_, ?_, ?_, ?_, ?_⟩
  · simp [get_sigmas_exponential, List.length_zipWith, linspace_length]
  · simp [get_sigmas_exponential, List.getLast?_concat]
  · simp only [get_sigmas_exponential]
    rw [ht1, ht2]
    simp only [List.map_cons, List.zipWith_cons_cons, List.cons_append, List.head?_cons,
      Option.some.injEq]
    rw [mul_zero, Real.exp_zero, mul_one, Real.exp_log hmax]
  · simp [kl_optimal]
  · simp only [kl_optimal]
    rw [List.range_succ_eq_map, List.map_cons, List.head?_cons]
    norm_num [Real.tan_arctan]
  · simp only [kl_optimal]
    rw [List.range_succ, List.map_append, List.map_cons, List.map_nil, List.getLast?_concat]
    have hne : (n : ℝ) ≠ 0 := Nat.cast_ne_zero.2 (by omega)
    norm_num [div_self hne, Real.tan_arctan]
  · simp [get_sigmas_laplace, linspace_length]
  · simp [get_sigmas_laplace, List.getLast?_concat]
  · simp only [get_sigmas_laplace]
    rw [ht2]
    simp only [List.map_cons, List.cons_append, List.head?_cons]
    refine ⟨_, rfl, ?_, ?_⟩
    · exact le_min (le_of_lt h1) (le_max_left _ _)
    · exact min_le_left _ _
  · simp [get_sigmas_sinusoidal_sf, linspace_length]
  · simp only [get_sigmas_sinusoidal_sf]
    rw [ht2]
    simp only [List.map_cons, List.head?_cons, Option.some.injEq]
    have hz : Real.pi / 2 * 0 = 0 := by ring
    rw [hz, Real.sin_zero]
    have hone : (smin + (smax - smin) * (1 - 0)) / smax = 1 := by
      field_simp
    rw [hone, Real.one_rpow, one_mul]
  · simp [get_sigmas_invcosinusoidal_sf, linspace_length]
  · simp only [get_sigmas_invcosinusoidal_sf]
    rw [ht2]
    simp only [List.map_cons, List.head?_cons, Option.some.injEq]
    rw [zero_mul, Real.cos_zero]
    have hone : (smin + (smax - smin) * (0.5 * (1 + 1))) / smax = 1 := by
      field_simp
      ring
    rw [hone, Real.one_rpow, one_mul]
  · simp [get_sigmas_react_cosinusoidal_dynsf, linspace_length]
  · simp only [get_sigmas_react_cosinusoidal_dynsf]
    rw [ht2]
    simp only [List.map_cons, List.head?_cons, Option.some.injEq]
    rw [zero_mul, Real.cos_zero]
    have hone : (smin + (smax - smin) * 1) / smax = 1 := by
      field_simp
    rw [hone, Real.one_rpow, one_mul]
  · simp [get_sigmas_karras_dynamic, List.length_zipWith, linspace_length]
  · simp [get_sigmas_karras_dynamic, List.getLast?_concat]
  · simp [get_sigmas_karras, linspace_length]
  · simp [get_sigmas_karras, List.getLast?_concat]
  · intro hρ
    simp only [get_sigmas_karras]
    rw [ht2]
    simp only [List.map_cons, List.cons_append, List.head?_cons, Option.some.injEq]
    rw [zero_mul, add_zero, ← Real.rpow_mul (le_of_lt hmax), one_div_mul_cancel hρ,
      Real.rpow_one]
  · simp [get_sigmas_polyexponential, linspace_length]
  · simp [get_sigmas_polyexponential, List.getLast?_concat]
  · simp only [get_sigmas_polyexponential]
    rw [ht3]
    simp only [List.map_cons, List.cons_append, List.head?_cons, Option.some.injEq]
    rw [Real.one_rpow, one_mul, sub_add_cancel, Real.exp_log hmax]

/-- Witness for C1's amended statement at `n = 1`, `sigma_min = 1`,
`sigma_max = 2` with the default configuration. -/
theorem c1_witness :
    1 ≤ 1 ∧ (0 : ℝ) < 1 ∧ (1 : ℝ) < 2 ∧ C1Facts {} false 1 1 2 :=
  ⟨le_refl 1, by norm_num, by norm_num,
    c1_amended_pattern_a_shapes {} false 1 1 2 (le_refl 1) (by norm_num) (by norm_num)⟩

theorem linspace_two : linspace 0 1 2 = [0, 1] := by
  rw [show linspace 0 1 2
      = (List.range 2).map (fun i : ℕ => 0 + (1 - 0) * (i : ℝ) / (((0 : ℕ) : ℝ) + 1)) from rfl,
    show List.range 2 = [0, 1] from rfl]
  norm_num

theorem linspace_three : linspace 0 1 3 = [0, 1/2, 1] := by
  rw [show linspace 0 1 3
      = (List.range 3).map (fun i : ℕ => 0 + (1 - 0) * (i : ℝ) / (((1 : ℕ) : ℝ) + 1)) from rfl,
    show List.range 3 = [0, 1, 2] from rfl]
  norm_num

theorem ays_custom_41_value : get_sigmas_ays_custom { ays_custom_sigmas := "[4,1]" } false 3 1 2
    = [4, 5/2, 1, 0] := by
  have hp : parseSigmaList ({ ays_custom_sigmas := "[4,1]" } : Opts).ays_custom_sigmas
      = some [4, 1] := by decide
  simp only [get_sigmas_ays_custom, hp]
  rw [if_pos (by norm_num)]
  simp only [List.map_cons, List.map_nil, List.length_cons, List.length_nil]
  rw [show (((4 : ℚ) : ℝ)) = (4 : ℝ) by norm_num, show (((1 : ℚ) : ℝ)) = (1 : ℝ) by norm_num]
  rw [show (0 + 1 + 1 : ℕ) = 2 from rfl, linspace_two, linspace_three]
  simp only [npInterp, List.zip_cons_cons, List.zip_nil_right, List.map_cons, List.map_nil]
  norm_num [interpPts]

theorem loglinear_41_value : loglinear_interp [(4 : ℝ), 1] 3 = [4, 2, 1] := by
  have h41 : ([(4 : ℝ), 1]).reverse.map Real.log = [0, Real.log 4] := by
    simp [Real.log_one]
  simp only [loglinear_interp, h41, List.length_cons, List.length_nil]
  rw [show (0 + 1 + 1 : ℕ) = 2 from rfl, linspace_two, linspace_three]
  simp only [npInterp, List.zip_cons_cons, List.zip_nil_right, List.map_cons, List.map_nil]
  have h0 : interpPts 0 [((0 : ℝ), (0 : ℝ)), (1, Real.log 4)] = 0 := by
    norm_num [interpPts]
  have hhalf : interpPts (1/2) [((0 : ℝ), (0 : ℝ)), (1, Real.log 4)] = Real.log 4 / 2 := by
    norm_num [interpPts]
    ring
  have h1 : interpPts 1 [((0 : ℝ), (0 : ℝ)), (1, Real.log 4)] = Real.log 4 := by
    norm_num [interpPts]
  rw [h0, hhalf, h1]
  have he2 : Real.exp (Real.log 4 / 2) = 2 := by
    have hl4 : Real.log 4 = 2 * Real.log 2 := by
      rw [show (4 : ℝ) = 2 ^ (2 : ℕ) by norm_num, Real.log_pow]
      push_cast
      ring
    rw [hl4, show (2 * Real.log 2) / 2 = Real.log 2 by ring]
    exact Real.exp_log (by norm_num)
  simp [Real.exp_zero, Real.exp_log, he2]

/-- Claim C3 counterexample: with custom table string "[4,1]" (parsed list
`[4, 1]`, length 2) and `n = 3`, the custom variant's second pre-terminator
value is `5/2` (plain linear interpolation of the values), while the shared
log-linear resampling of the same table to 3 points has second value `2`:
the custom variant does NOT use the log-linear helper. -/
theorem c3_counterexample_custom_is_linear :
    (get_sigmas_ays_custom { ays_custom_sigmas := "[4,1]" } false 3 1 2)[1]?
      = some (5 / 2 : ℝ) ∧
    (loglinear_interp [(4 : ℝ), 1] 3)[1]? = some (2 : ℝ) ∧
    (5 / 2 : ℝ) ≠ 2 := by
  refine ⟨?_, ?_, by norm_num⟩
  · rw [ays_custom_41_value]
    rfl
  · rw [loglinear_41_value]
    rfl

/-- Claim C3, amended: the default, GITS, 11 and 32 align-your-steps variants
all resample their reference table with the shared log-linear helper, while
the custom variant resamples its successfully parsed list of length `m ≠ n`
with plain linear `np.interp` in value space — see `C3Facts`. -/
theorem c3_amended_resampling (o : Opts) (isxl : Bool) (n : ℕ) (smin smax : ℝ) (qs : List ℚ)
    (h11 : n ≠ 11) (h32 : n ≠ 32)
    (hp : parseSigmaList o.ays_custom_sigmas = some qs)
    (hm : qs.length ≠ n) :
    C3Facts o isxl n smin smax qs := by
  have htlen11 : (if isxl then ays_table_sdxl else ays_table_sd15).length = 11 := by
    cases isxl <;> simp [ays_table_sdxl, ays_table_sd15]
  have hglen : (if isxl then gits_table_sdxl else gits_table_sd15).length = 11 := by
    cases isxl <;> simp [gits_table_sdxl, gits_table_sd15]
  have h32len : (if isxl then ays32_table_sdxl else ays32_table_sd15).length = 32 := by
    cases isxl <;> simp [ays32_table_sdxl, ays32_table_sd15]
  refine ⟨?_, ?_, ?_, ?_, ?_⟩
  · simp only [get_align_your_steps_sigmas]
    rw [if_pos (by rw [htlen11]; exact h11)]
  · simp only [get_align_your_steps_sigmas_GITS]
    rw [if_pos (by rw [hglen]; exact h11)]
  · simp only [ays_11_sigmas]
    rw [if_pos (by rw [htlen11]; exact h11)]
  · simp only [ays_32_sigmas]
    rw [if_pos (by rw [h32len]; exact h32)]
  · simp only [get_sigmas_ays_custom, hp]
    rw [if_pos (by simp only [List.length_map]; exact Ne.symm hm)]
    simp [List.length_map]

/-- Witness for C3's amended statement at the parsed custom list `[4, 1]`
resampled to `n = 5`. -/
theorem c3_witness :
    (5 : ℕ) ≠ 11 ∧ (5 : ℕ) ≠ 32 ∧
    parseSigmaList ({ ays_custom_sigmas := "[4,1]" } : Opts).ays_custom_sigmas = some [4, 1] ∧
    ([4, 1] : List ℚ).length ≠ 5 ∧
    C3Facts { ays_custom_sigmas := "[4,1]" } false 5 1 2 [4, 1] :=
  ⟨by decide, by decide, by decide, by decide,
    c3_amended_resampling _ false 5 1 2 [4, 1] (by decide) (by decide) (by decide) (by decide)⟩

end SdSched
